import Mathlib

/-!
Verification of the GoTools repository's tabular-data core: header
deduplication (`RenameDuplicates`), markup sanitization (`FixXMLTags`,
`cleanHeader`), table building (`buildDataTable`), date coercion
(`convertToISO8601`), error reporting (`ErrMsg.Exit`) and extension
checking (`CheckExtension`).

Go strings are modelled as lists of characters (`GoStr`), Go slices of
strings as `List GoStr`, the Go `map[string]int` with zero defaults as a
function `GoStr → Nat`, and a Go index-out-of-range panic as the `none`
branch of an `Option`-valued embedding.
-/

set_option maxRecDepth 8000

/-- Go strings, modelled as lists of characters. -/
abbrev GoStr := List Char

/-- The character for decimal digit `d`, as produced by Go `fmt` verbs. -/
def digitChar (d : Nat) : Char := Char.ofNat (48 + d)

/-- Fuel-indexed helper computing the decimal digits of a natural number,
most significant digit first, as Go `fmt.Sprintf` with verb `%d` does.
The fuel only makes the recursion structural; `natToDecimal` supplies
enough fuel for it never to run out. -/
def natToDecimalAux : Nat → Nat → List Char
  | 0, _ => []
  | fuel + 1, n =>
    if n < 10 then [digitChar n]
    else natToDecimalAux fuel (n / 10) ++ [digitChar (n % 10)]

/-- Decimal representation of a natural number (Go `fmt.Sprintf` `%d`,
and the digit run emitted by Go `time`'s `appendInt`). -/
def natToDecimal (n : Nat) : GoStr := natToDecimalAux (n + 1) n

/-- Numeric value of a digit string; used to invert `natToDecimal`. -/
def decVal (s : GoStr) : Nat := s.foldl (fun a c => 10 * a + (c.toNat - 48)) 0

/-- The Go map update `counts[header]++` of renameDupeCols.go. -/
def bumpCount (counts : GoStr → Nat) (header : GoStr) : GoStr → Nat :=
  fun s => if s = header then counts header + 1 else counts s

/-- The loop of `RenameDuplicates` (renameDupeCols.go lines 235-240): for
each header in order, increment its occurrence count; if the count is now
greater than one, the slot is overwritten with `header_<count>`
(`fmt.Sprintf` with verb string `%s_%d`). The loop reads each element
before writing the same index, so every read sees the original input. -/
def renameLoop : (GoStr → Nat) → List GoStr → List GoStr
  | _, [] => []
  | counts, header :: rest =>
    (if 1 < counts header + 1 then
        header ++ '_' :: natToDecimal (counts header + 1)
      else header) :: renameLoop (bumpCount counts header) rest

/-- `RenameDuplicates` (renameDupeCols.go lines 232-247). The Go function
mutates its argument slice in place and returns it; the embedding returns
the final contents of that slice, which is simultaneously the returned
value and what the caller's aliases observe. The second loop of the Go
function only prints diagnostics and does not affect the result. -/
def RenameDuplicates (input : List GoStr) : List GoStr :=
  renameLoop (fun _ => 0) input

/-- The invalid XML name characters stripped by `FixXMLTags`
(renameDupeCols.go lines 269-275), given by character code in source
order: parentheses, angle brackets, slash, backslash, question mark,
exclamation mark, double quote, single quote, at sign, hash, dollar,
percent, caret, ampersand, asterisk, plus, equals, tilde, grave accent,
vertical bar, square brackets, curly braces, semicolon, colon, comma,
period. Note the list does not contain the space character. -/
def invalidXmlChars : List Char :=
  [Char.ofNat 40, Char.ofNat 41, Char.ofNat 60, Char.ofNat 62, Char.ofNat 47,
   Char.ofNat 92, Char.ofNat 63, Char.ofNat 33, Char.ofNat 34, Char.ofNat 39,
   Char.ofNat 64, Char.ofNat 35, Char.ofNat 36, Char.ofNat 37, Char.ofNat 94,
   Char.ofNat 38, Char.ofNat 42, Char.ofNat 43, Char.ofNat 61, Char.ofNat 126,
   Char.ofNat 96, Char.ofNat 124, Char.ofNat 91, Char.ofNat 93, Char.ofNat 123,
   Char.ofNat 125, Char.ofNat 59, Char.ofNat 58, Char.ofNat 44, Char.ofNat 46]

/-- `FixXMLTags` (renameDupeCols.go lines 268-282): for each invalid
character in order, `strings.ReplaceAll(cleanTag, string(char), "")`
removes every occurrence of that character. -/
def FixXMLTags (tag : GoStr) : GoStr :=
  invalidXmlChars.foldl (fun t c => t.filter (fun x => x != c)) tag

/-- ASCII decimal digit test (Go `isDigit` in package `time`). -/
def isAsciiDigit (c : Char) : Bool := 48 ≤ c.toNat && c.toNat ≤ 57

/-- Numeric value of an ASCII digit character. -/
def digitVal (c : Char) : Nat := c.toNat - 48

/-- ASCII letter test, for the ASCII model of the x/text title caser. -/
def isAsciiLetter (c : Char) : Bool :=
  (65 ≤ c.toNat && c.toNat ≤ 90) || (97 ≤ c.toNat && c.toNat ≤ 122)

/-- ASCII uppercase mapping (agrees with Go's Unicode mapping on ASCII). -/
def toUpperCh (c : Char) : Char :=
  if 97 ≤ c.toNat && c.toNat ≤ 122 then Char.ofNat (c.toNat - 32) else c

/-- ASCII lowercase mapping (agrees with Go's Unicode mapping on ASCII). -/
def toLowerCh (c : Char) : Char :=
  if 65 ≤ c.toNat && c.toNat ≤ 90 then Char.ofNat (c.toNat + 32) else c

/-- Word-progress state of the title caser: outside a word, inside a word
whose cased letter has not yet appeared, or inside a word after its first
cased letter. -/
inductive WordState
  | noWord
  | wordUncased
  | wordCased
deriving DecidableEq

/-- Modelled from the library `golang.org/x/text/cases`:
`cases.Title(language.English).String`, restricted to ASCII text. The
first cased letter of each word is uppercased and later letters of the
word are lowercased; digits extend a word without being cased, and an
apostrophe (code 39) is word-internal, as in the Unicode word-break
rules the library approximates. -/
def titleLoop : WordState → GoStr → GoStr
  | _, [] => []
  | st, c :: rest =>
    if isAsciiLetter c then
      match st with
      | WordState.wordCased => toLowerCh c :: titleLoop WordState.wordCased rest
      | _ => toUpperCh c :: titleLoop WordState.wordCased rest
    else if isAsciiDigit c then
      c :: titleLoop (match st with | WordState.noWord => WordState.wordUncased | s => s) rest
    else if c = Char.ofNat 39 then
      c :: titleLoop st rest
    else
      c :: titleLoop WordState.noWord rest

/-- Title casing of a whole string (`cases.Title(language.English)`). -/
def titleCaseGo (s : GoStr) : GoStr := titleLoop WordState.noWord s

/-- `strings.ContainsAny(header, " ")`: the header contains a space. -/
def containsSpace (s : GoStr) : Bool := s.contains (Char.ofNat 32)

/-- `cleanHeader` (parseToXml.go lines 140-147): if the header contains a
space it is title-cased, then `FixXMLTags` strips the invalid characters.
The Go function mutates through a pointer; the embedding returns the new
value stored back into the header slot. -/
def cleanHeader (header : GoStr) : GoStr :=
  FixXMLTags (if containsSpace header then titleCaseGo header else header)

/-- A column of the XML data table (parseToXml.go): `XMLName.Local` is the
column's element name and `Value` its character data. -/
structure DataColumn where
  name : GoStr
  value : GoStr
deriving DecidableEq

/-- A row of the XML data table: its ordered columns. -/
structure DataRow where
  columns : List DataColumn
deriving DecidableEq

/-- The XML data table: its ordered rows. -/
structure DataTable where
  rows : List DataRow
deriving DecidableEq

/-- The header row after `buildDataTable`'s first iteration
(parseToXml.go lines 159-163): `RenameDuplicates` renames the duplicates
in place in row 0 and returns that same slice, and `cleanHeader` then
rewrites each of its entries; later reads of row 0 see these values. -/
def processHeader (hdr : List GoStr) : List GoStr :=
  (RenameDuplicates hdr).map cleanHeader

/-- One data row of `buildDataTable` (parseToXml.go lines 165-171): for
each column index of the data row, pair the header name at that index
with the cell value. Reading the header at an index beyond its length is
a Go index-out-of-range panic, modelled as `none`. -/
def buildRecord (header : List GoStr) : List GoStr → Nat → Option (List DataColumn)
  | [], _ => some []
  | v :: vs, i =>
    (header.get? i).bind fun n =>
      (buildRecord header vs (i + 1)).map fun rest => ⟨n, v⟩ :: rest

/-- All data rows of `buildDataTable`, in order; a panic in any row is
propagated as `none`. -/
def buildRows (header : List GoStr) : List (List GoStr) → Option (List DataRow)
  | [] => some []
  | r :: rs =>
    (buildRecord header r 0).bind fun cols =>
      (buildRows header rs).map fun rest => ⟨cols⟩ :: rest

/-- `buildDataTable` (parseToXml.go lines 153-176), totalized: a `nil`
rows pointer or an empty rows slice yields an empty table; otherwise row
0 is processed into the header (in place, see `processHeader`) and every
later row becomes a `DataRow` by positional pairing. `none` models the
index-out-of-range panic of an unguarded header lookup. -/
def buildDataTable? (rows : Option (List (List GoStr))) : Option DataTable :=
  match rows with
  | none => some ⟨[]⟩
  | some [] => some ⟨[]⟩
  | some (hdr :: dataRows) => (buildRows (processHeader hdr) dataRows).map DataTable.mk

/-- Layout tokens of the nine Go `time` layouts used by
`convertToISO8601` (src/unnamed/part_001 lines 197-216): zero-padded
month `01`, unpadded month `1`, zero-padded day `02`, two-digit year
`06`, hour `15`, zero-padded minute `04`, zero-padded second `05`, and
literal separator characters. -/
inductive Tok
  | zeroMonth
  | numMonth
  | zeroDay
  | year2
  | hourTok
  | zeroMinute
  | zeroSecond
  | lit (c : Char)
deriving DecidableEq

/-- The broken-down time produced by the Go `time.Parse` model. -/
structure ParsedTime where
  year : Nat
  month : Nat
  day : Nat
  hour : Nat
  minute : Nat
  second : Nat
deriving DecidableEq

/-- Go `time.Parse` field defaults: year 0, month 1, day 1, zero clock. -/
def initTime : ParsedTime := ⟨0, 1, 1, 0, 0, 0⟩

/-- Go `time`'s `getnum` with `fixed = true`: exactly two digits. -/
def getnum2 : GoStr → Option (Nat × GoStr)
  | c1 :: c2 :: rest =>
    if isAsciiDigit c1 && isAsciiDigit c2 then
      some (digitVal c1 * 10 + digitVal c2, rest)
    else none
  | _ => none

/-- Go `time`'s `getnum` with `fixed = false`: one digit, or two if the
second character is also a digit. -/
def getnum12 : GoStr → Option (Nat × GoStr)
  | [] => none
  | [c1] => if isAsciiDigit c1 then some (digitVal c1, []) else none
  | c1 :: c2 :: rest =>
    if isAsciiDigit c1 then
      if isAsciiDigit c2 then some (digitVal c1 * 10 + digitVal c2, rest)
      else some (digitVal c1, c2 :: rest)
    else none

/-- Go `time`'s `atoi` applied to the two-character year field: two
digits, or a sign character followed by one digit. -/
def atoi2 (c1 c2 : Char) : Option Int :=
  if isAsciiDigit c1 && isAsciiDigit c2 then
    some ((digitVal c1 * 10 + digitVal c2 : Nat) : Int)
  else if c1 = '-' && isAsciiDigit c2 then some (-(digitVal c2 : Int))
  else if c1 = '+' && isAsciiDigit c2 then some ((digitVal c2 : Nat) : Int)
  else none

/-- Go `time.Parse`'s two-digit year mapping: years 69-99 are in the
1900s, others in the 2000s. -/
def mapYear2 (y : Int) : Nat :=
  if 69 ≤ y then (1900 + y).toNat else (2000 + y).toNat

/-- The `stdYear` case of Go `time.Parse`: consume exactly two characters
and map the parsed value through the century rule. -/
def year2Parse : GoStr → Option (Nat × GoStr)
  | c1 :: c2 :: rest =>
    match atoi2 c1 c2 with
    | some y => some (mapYear2 y, rest)
    | none => none
  | _ => none

/-- Go `time.isLeap`. -/
def isLeap (y : Nat) : Bool := y % 4 = 0 && (y % 100 != 0 || y % 400 = 0)

/-- Go `time.daysIn`: days in month `m` of year `y`. -/
def daysIn (m y : Nat) : Nat :=
  if m = 2 then (if isLeap y then 29 else 28)
  else if m = 4 || m = 6 || m = 9 || m = 11 then 30
  else 31

/-- The range checks of Go `time.Parse`: month 1-12, day within the
month, hour below 24, minute and second below 60. -/
def validTime (t : ParsedTime) : Bool :=
  1 ≤ t.month && t.month ≤ 12 && 1 ≤ t.day && t.day ≤ daysIn t.month t.year &&
    t.hour < 24 && t.minute < 60 && t.second < 60

/-- The scanning loop of Go `time.Parse`: consume the value according to
the layout tokens, recording the fields; when the layout is exhausted the
value must be fully consumed (the `extra text` error). -/
def scanLayout : List Tok → GoStr → ParsedTime → Option ParsedTime
  | [], s, st => if s.isEmpty then some st else none
  | Tok.lit c :: toks, s, st =>
    match s with
    | c2 :: rest => if c2 = c then scanLayout toks rest st else none
    | [] => none
  | Tok.zeroMonth :: toks, s, st =>
    match getnum2 s with
    | some (v, rest) => scanLayout toks rest { st with month := v }
    | none => none
  | Tok.numMonth :: toks, s, st =>
    match getnum12 s with
    | some (v, rest) => scanLayout toks rest { st with month := v }
    | none => none
  | Tok.zeroDay :: toks, s, st =>
    match getnum2 s with
    | some (v, rest) => scanLayout toks rest { st with day := v }
    | none => none
  | Tok.year2 :: toks, s, st =>
    match year2Parse s with
    | some (v, rest) => scanLayout toks rest { st with year := v }
    | none => none
  | Tok.hourTok :: toks, s, st =>
    match getnum12 s with
    | some (v, rest) => scanLayout toks rest { st with hour := v }
    | none => none
  | Tok.zeroMinute :: toks, s, st =>
    match getnum2 s with
    | some (v, rest) => scanLayout toks rest { st with minute := v }
    | none => none
  | Tok.zeroSecond :: toks, s, st =>
    match getnum2 s with
    | some (v, rest) => scanLayout toks rest { st with second := v }
    | none => none

/-- Go `time.Parse` for one of the nine layouts: scan, then apply the
range checks. -/
def runParse (toks : List Tok) (s : GoStr) : Option ParsedTime :=
  match scanLayout toks s initTime with
  | some t => if validTime t then some t else none
  | none => none

/-- The nine layouts of `convertToISO8601` in source order:
`01-02-06`, `01-02-06 15:04`, `01-02-06 15:04:05`, `1/02/06`,
`1/02/06 15:04`, `1/02/06 15:04:05`, `01/02/06`, `01/02/06 15:04`,
`01/02/06 15:04:05`. -/
def formats : List (List Tok) :=
  [[Tok.zeroMonth, Tok.lit '-', Tok.zeroDay, Tok.lit '-', Tok.year2],
   [Tok.zeroMonth, Tok.lit '-', Tok.zeroDay, Tok.lit '-', Tok.year2,
    Tok.lit ' ', Tok.hourTok, Tok.lit ':', Tok.zeroMinute],
   [Tok.zeroMonth, Tok.lit '-', Tok.zeroDay, Tok.lit '-', Tok.year2,
    Tok.lit ' ', Tok.hourTok, Tok.lit ':', Tok.zeroMinute, Tok.lit ':', Tok.zeroSecond],
   [Tok.numMonth, Tok.lit '/', Tok.zeroDay, Tok.lit '/', Tok.year2],
   [Tok.numMonth, Tok.lit '/', Tok.zeroDay, Tok.lit '/', Tok.year2,
    Tok.lit ' ', Tok.hourTok, Tok.lit ':', Tok.zeroMinute],
   [Tok.numMonth, Tok.lit '/', Tok.zeroDay, Tok.lit '/', Tok.year2,
    Tok.lit ' ', Tok.hourTok, Tok.lit ':', Tok.zeroMinute, Tok.lit ':', Tok.zeroSecond],
   [Tok.zeroMonth, Tok.lit '/', Tok.zeroDay, Tok.lit '/', Tok.year2],
   [Tok.zeroMonth, Tok.lit '/', Tok.zeroDay, Tok.lit '/', Tok.year2,
    Tok.lit ' ', Tok.hourTok, Tok.lit ':', Tok.zeroMinute],
   [Tok.zeroMonth, Tok.lit '/', Tok.zeroDay, Tok.lit '/', Tok.year2,
    Tok.lit ' ', Tok.hourTok, Tok.lit ':', Tok.zeroMinute, Tok.lit ':', Tok.zeroSecond]]

/-- Two-digit zero padding, as Go `time`'s `appendInt(_, 2)` used for the
month, day, hour, minute and second of `time.DateTime`. -/
def pad2 (n : Nat) : GoStr :=
  if n < 10 then digitChar 0 :: natToDecimal n else natToDecimal n

/-- Four-digit zero padding, as Go `time`'s `appendInt(_, 4)` used for
the year of `time.DateTime`. -/
def format4 (n : Nat) : GoStr :=
  List.replicate (4 - (natToDecimal n).length) (digitChar 0) ++ natToDecimal n

/-- `parsedDate.Format(time.DateTime)`: the canonical layout
`2006-01-02 15:04:05`. -/
def formatDateTime (t : ParsedTime) : GoStr :=
  format4 t.year ++ '-' :: pad2 t.month ++ '-' :: pad2 t.day ++ ' ' :: pad2 t.hour ++
    ':' :: pad2 t.minute ++ ':' :: pad2 t.second

/-- The loop of `convertToISO8601`: try each layout in order and return
the reformatted first success. -/
def tryFormats : List (List Tok) → GoStr → Option GoStr
  | [], _ => none
  | f :: fs, s =>
    match runParse f s with
    | some t => some (formatDateTime t)
    | none => tryFormats fs s

/-- `convertToISO8601` (src/unnamed/part_001 lines 197-216): the first
layout that parses wins and the parsed time is reformatted as
`time.DateTime`; if no layout matches, the original string is returned. -/
def convertToISO8601 (s : GoStr) : GoStr :=
  match tryFormats formats s with
  | some r => r
  | none => s

/-- Exit code `Success` of pkg/helpers/errors.go (iota order). -/
def Success : Nat := 0

/-- Exit code `ErrStdin` of pkg/helpers/errors.go (iota order). -/
def ErrStdin : Nat := 5

/-- Exit code `ErrNoInput` of pkg/helpers/errors.go (iota order). -/
def ErrNoInput : Nat := 7

/-- Exit code `ErrNoFile` of pkg/helpers/errors.go (iota order). -/
def ErrNoFile : Nat := 8

/-- Exit code `ErrInvalidFileType` of pkg/helpers/errors.go (iota order). -/
def ErrInvalidFileType : Nat := 9

/-- Exit code `ErrParse` of pkg/helpers/errors.go (iota order). -/
def ErrParse : Nat := 10

/-- `ErrMsg` (pkg/helpers/errors.go): an optional underlying error (Go
`error` values may be `nil`, modelled by `none`) and an exit code. -/
structure ErrMsg where
  err : Option GoStr
  code : Nat
deriving DecidableEq

/-- The diagnostic text printed by `ErrMsg.Exit` when `Err` is non-nil:
`fmt.Printf` of the message, code and error detail. -/
def diagnosticText (code : Nat) (msg : GoStr) : GoStr :=
  ("An error occured!\nError Code: ").data ++ natToDecimal code ++
    ("\nDetail: ").data ++ msg ++ [Char.ofNat 10]

/-- The observable behavior of `ErrMsg.Exit` (pkg/helpers/errors.go lines
49-54): what is printed (the diagnostic only when `Err != nil`, else
nothing) and the process exit code (always `Code`). -/
def ErrMsg.exitBehavior (e : ErrMsg) : Option GoStr × Nat :=
  (match e.err with
   | some m => some (diagnosticText e.code m)
   | none => none,
   e.code)

/-- The `ErrMsg` value assigned on parse-xml's no-input path
(parseToXml.go line 73): `ErrMsg{Code: ErrNoInput}`, whose `Err` field is
`nil`. `main` has no early returns, so later error paths may overwrite
this value before the deferred `Exit` runs; the definition models the
value itself, as an input to `ErrMsg.Exit`. -/
def parseXmlNoInputMsg : ErrMsg := { err := none, code := ErrNoInput }

/-- The `ErrMsg` value assigned on parse-xml's nonexistent-path path
(parseToXml.go line 78) when `PathExists` returns `(false, nil)` for a
missing file: `ErrMsg{Err: pathErr, Code: ErrNoFile}` with
`pathErr = nil`. As with `parseXmlNoInputMsg`, later assignments in
`main` may overwrite it before the deferred `Exit` runs. -/
def parseXmlMissingFileMsg : ErrMsg := { err := none, code := ErrNoFile }

/-- The loop of Go `filepath.Ext`, scanning the path from its end (the
first argument is the reversed remainder, the second the characters
already scanned, in original order): stop empty at a path separator,
return the suffix from the first period found. Separator and period are
codes 47 and 46; the model uses the Unix separator. -/
def extFromRev : GoStr → GoStr → GoStr
  | [], _ => []
  | c :: rest, acc =>
    if c = Char.ofNat 47 then []
    else if c = Char.ofNat 46 then c :: acc
    else extFromRev rest (c :: acc)

/-- Go `filepath.Ext`: the suffix of the final path element starting at
its last period, or empty. -/
def filepathExt (path : GoStr) : GoStr := extFromRev path.reverse []

/-- Go `strings.ToLower`, restricted to ASCII (where it agrees with the
Unicode mapping). -/
def toLowerStr (s : GoStr) : GoStr := s.map toLowerCh

/-- The dot-prepending step of `CheckExtension`: `strings.HasPrefix`
check followed by concatenation when the leading period is missing. -/
def dotPrefixed (extension : GoStr) : GoStr :=
  match extension with
  | c :: _ => if c = Char.ofNat 46 then extension else Char.ofNat 46 :: extension
  | [] => [Char.ofNat 46]

/-- `CheckExtension` (pkg/helpers/errors.go lines 76-81): compare the
path's actual extension with the lowercased expected extension. -/
def CheckExtension (path extension : GoStr) : Bool :=
  filepathExt path == toLowerStr (dotPrefixed extension)

/-! ### Lemmas about the decimal representation -/

theorem digitChar_toNat {d : Nat} (h : d < 10) : (digitChar d).toNat = 48 + d := by
  interval_cases d <;> decide

theorem digitChar_isDigit {d : Nat} (h : d < 10) : isAsciiDigit (digitChar d) = true := by
  interval_cases d <;> decide

theorem decVal_append_digit (l : List Char) (c : Char) :
    decVal (l ++ [c]) = 10 * decVal l + (c.toNat - 48) := by
  simp [decVal, List.foldl_append]

theorem natToDecimalAux_val : ∀ fuel n, n < fuel → decVal (natToDecimalAux fuel n) = n := by
  intro fuel
  induction fuel with
  | zero => intro n h; omega
  | succ fuel ih =>
    intro n h
    by_cases h10 : n < 10
    · rw [show natToDecimalAux (fuel + 1) n = [digitChar n] from by
        simp [natToDecimalAux, h10]]
      simp [decVal, digitChar_toNat h10]
    · have h1 : n / 10 < n := Nat.div_lt_self (by omega) (by omega)
      rw [show natToDecimalAux (fuel + 1) n =
          natToDecimalAux fuel (n / 10) ++ [digitChar (n % 10)] from by
        simp [natToDecimalAux, h10]]
      rw [decVal_append_digit, ih _ (by omega), digitChar_toNat (Nat.mod_lt _ (by omega))]
      omega

theorem natToDecimal_val (n : Nat) : decVal (natToDecimal n) = n :=
  natToDecimalAux_val _ _ (Nat.lt_succ_self n)

theorem natToDecimal_injective {m n : Nat} (h : natToDecimal m = natToDecimal n) : m = n := by
  have hm := natToDecimal_val m
  rw [h, natToDecimal_val] at hm
  omega

theorem natToDecimalAux_digits :
    ∀ fuel n c, c ∈ natToDecimalAux fuel n → isAsciiDigit c = true := by
  intro fuel
  induction fuel with
  | zero => intro n c hc; simp [natToDecimalAux] at hc
  | succ fuel ih =>
    intro n c hc
    by_cases h10 : n < 10
    · simp [natToDecimalAux, h10] at hc
      subst hc
      exact digitChar_isDigit h10
    · simp [natToDecimalAux, h10] at hc
      rcases hc with hc | hc
      · exact ih _ _ hc
      · subst hc
        exact digitChar_isDigit (Nat.mod_lt _ (by omega))

theorem natToDecimal_digits {n : Nat} {c : Char} (hc : c ∈ natToDecimal n) :
    isAsciiDigit c = true :=
  natToDecimalAux_digits _ _ _ hc

theorem underscore_not_mem_natToDecimal (n : Nat) : '_' ∉ natToDecimal n := fun h =>
  absurd (natToDecimal_digits h) (by decide)

theorem append_underscore_cancel :
    ∀ (a b d e : GoStr), (∀ c ∈ a, c ≠ '_') → (∀ c ∈ b, c ≠ '_') →
      a ++ '_' :: d = b ++ '_' :: e → a = b ∧ d = e := by
  intro a
  induction a with
  | nil =>
    intro b d e _ hb h
    cases b with
    | nil => simpa using h
    | cons c bs =>
      simp only [List.nil_append, List.cons_append, List.cons.injEq] at h
      exact absurd h.1.symm (hb c (by simp))
  | cons c as ih =>
    intro b d e ha hb h
    cases b with
    | nil =>
      simp only [List.nil_append, List.cons_append, List.cons.injEq] at h
      exact absurd h.1 (ha c (by simp))
    | cons c2 bs =>
      simp only [List.cons_append, List.cons.injEq] at h
      obtain ⟨rfl, h2⟩ := h
      obtain ⟨h3, h4⟩ := ih bs d e (fun x hx => ha x (by simp [hx]))
        (fun x hx => hb x (by simp [hx])) h2
      exact ⟨by rw [h3], h4⟩

/-! ### Lemmas about RenameDuplicates -/

theorem renameLoop_length :
    ∀ (l : List GoStr) (counts : GoStr → Nat), (renameLoop counts l).length = l.length := by
  intro l
  induction l with
  | nil => intro counts; rfl
  | cons h t ih => intro counts; simp [renameLoop, ih]

theorem RenameDuplicates_length (l : List GoStr) :
    (RenameDuplicates l).length = l.length :=
  renameLoop_length l _

theorem renameLoop_get? :
    ∀ (l : List GoStr) (counts : GoStr → Nat) (i : Nat) (v : GoStr), l.get? i = some v →
      (renameLoop counts l).get? i =
        some (if 1 < counts v + (l.take (i + 1)).count v then
                v ++ '_' :: natToDecimal (counts v + (l.take (i + 1)).count v)
              else v) := by
  intro l
  induction l with
  | nil => intro counts i v hv; simp at hv
  | cons hd tl ih =>
    intro counts i v hv
    cases i with
    | zero =>
      have hhd : hd = v := by simpa using hv
      subst hhd
      simp [renameLoop, List.count_cons]
    | succ j =>
      have hv' : tl.get? j = some v := by simpa using hv
      have hrec := ih (bumpCount counts hd) j v hv'
      have hAB : bumpCount counts hd v + (tl.take (j + 1)).count v =
          counts v + ((hd :: tl).take (j + 1 + 1)).count v := by
        simp only [List.take_succ_cons, List.count_cons, bumpCount]
        by_cases hvh : v = hd
        · subst hvh
          simp
          omega
        · have hvh2 : ¬ hd = v := fun h => hvh h.symm
          simp [hvh, hvh2]
      rw [show (renameLoop counts (hd :: tl)).get? (j + 1) =
          (renameLoop (bumpCount counts hd) tl).get? j from rfl]
      rw [hrec, hAB]

theorem RenameDuplicates_get? {l : List GoStr} {i : Nat} {v : GoStr} (hv : l.get? i = some v) :
    (RenameDuplicates l).get? i =
      some (if 1 < (l.take (i + 1)).count v then
              v ++ '_' :: natToDecimal ((l.take (i + 1)).count v)
            else v) := by
  have h := renameLoop_get? l (fun _ => 0) i v hv
  simpa [RenameDuplicates] using h

theorem count_take_pos {l : List GoStr} {i : Nat} {v : GoStr} (hv : l.get? i = some v) :
    1 ≤ (l.take (i + 1)).count v := by
  have hm : v ∈ l.take (i + 1) := by
    rw [List.take_succ]
    refine List.mem_append_right _ ?_
    simp [← List.get?_eq_getElem?, hv]
  exact List.count_pos_iff.mpr hm

theorem nodup_count_le_one : ∀ {l : List GoStr}, l.Nodup → ∀ v : GoStr, l.count v ≤ 1 := by
  intro l
  induction l with
  | nil => intro _ v; simp
  | cons a t ih =>
    intro h v
    obtain ⟨ha, ht⟩ := List.nodup_cons.mp h
    rw [List.count_cons]
    by_cases hav : a = v
    · subst hav
      have h0 : t.count a = 0 := List.count_eq_zero.mpr ha
      simp [h0]
    · have := ih ht v
      simp [hav]
      omega

theorem count_take_le (l : List GoStr) (n : Nat) (v : GoStr) :
    (l.take n).count v ≤ l.count v :=
  ((List.take_prefix n l).sublist).count_le v

theorem count_take_succ_lt {l : List GoStr} {i j : Nat} {v : GoStr} (hij : i < j)
    (hv : l.get? j = some v) :
    (l.take (i + 1)).count v < (l.take (j + 1)).count v := by
  have h1 : l.take (j + 1) = l.take j ++ [v] := by
    rw [List.take_succ]
    simp [← List.get?_eq_getElem?, hv]
  have he : (l.take j).take (i + 1) = l.take (i + 1) := by
    rw [List.take_take]
    congr 1
    exact Nat.min_eq_left (by omega)
  have h2 : (l.take (i + 1)).count v ≤ (l.take j).count v := by
    rw [← he]
    exact ((List.take_prefix _ _).sublist).count_le v
  rw [h1, List.count_append]
  simp
  omega

theorem two_le_count_take {l : List GoStr} {i j : Nat} {v : GoStr} (hij : i < j)
    (hvi : l.get? i = some v) (hvj : l.get? j = some v) :
    2 ≤ (l.take (j + 1)).count v := by
  have h1 := count_take_pos hvi
  have h2 := count_take_succ_lt hij hvj
  omega

/-! ### Claim theorems about RenameDuplicates -/

/-- C1 counterexample: the claim that the output of `RenameDuplicates`
never contains two equal entries fails on an input that already contains
a name of the form `X_2`: renaming the second `A` manufactures `A_2`,
which collides with the existing entry `A_2`. -/
theorem C1_counterexample :
    ¬ (RenameDuplicates [['A'], ['A'], ['A', '_', '2']]).Nodup := by decide

/-- C1 (amended): for every input header sequence none of whose entries
contains an underscore (in particular, no entry of the form `X_2`), the
sequence returned by `RenameDuplicates` contains no two equal entries;
and unconditionally, for every input, the output has the same length and
the entry at each position extends the input entry at that same position
(order matches input order). -/
theorem C1_nodup_of_underscore_free :
    (∀ l : List GoStr, (∀ s ∈ l, ∀ c ∈ s, c ≠ '_') → (RenameDuplicates l).Nodup)
    ∧ (∀ l : List GoStr, (RenameDuplicates l).length = l.length)
    ∧ (∀ (l : List GoStr) (i : Nat) (v : GoStr), l.get? i = some v →
        ∃ w, (RenameDuplicates l).get? i = some w ∧ v <+: w) := by
  refine ⟨?_, RenameDuplicates_length, ?_⟩
  · intro l hl
    rw [List.nodup_iff_get?_ne_get?]
    intro i j hij hj hcontra
    rw [RenameDuplicates_length] at hj
    have hi : i < l.length := lt_trans hij hj
    obtain ⟨vi, hvi⟩ : ∃ v, l.get? i = some v := ⟨_, List.get?_eq_get hi⟩
    obtain ⟨vj, hvj⟩ : ∃ v, l.get? j = some v := ⟨_, List.get?_eq_get hj⟩
    have hfi : ∀ c ∈ vi, c ≠ '_' := hl vi (List.get?_mem hvi)
    have hfj : ∀ c ∈ vj, c ≠ '_' := hl vj (List.get?_mem hvj)
    rw [RenameDuplicates_get? hvi, RenameDuplicates_get? hvj] at hcontra
    by_cases h1 : 1 < (l.take (i + 1)).count vi <;>
      by_cases h2 : 1 < (l.take (j + 1)).count vj
    · rw [if_pos h1, if_pos h2] at hcontra
      obtain ⟨heq, hdec⟩ := append_underscore_cancel vi vj _ _ hfi hfj
        (by simpa using Option.some.inj hcontra)
      subst heq
      have hcc := natToDecimal_injective hdec
      have hlt : (l.take (i + 1)).count vi < (l.take (j + 1)).count vi :=
        count_take_succ_lt hij hvj
      omega
    · rw [if_pos h1, if_neg h2] at hcontra
      have h := Option.some.inj hcontra
      have hu : '_' ∈ vj := by
        rw [← h]
        exact List.mem_append_right _ (List.mem_cons_self _ _)
      exact hfj _ hu rfl
    · rw [if_neg h1, if_pos h2] at hcontra
      have h := Option.some.inj hcontra
      have hu : '_' ∈ vi := by
        rw [h]
        exact List.mem_append_right _ (List.mem_cons_self _ _)
      exact hfi _ hu rfl
    · rw [if_neg h1, if_neg h2] at hcontra
      have heq : vi = vj := Option.some.inj hcontra
      have h3 : 2 ≤ (l.take (j + 1)).count vj := two_le_count_take hij (heq ▸ hvi) hvj
      omega
  · intro l i v hv
    rw [RenameDuplicates_get? hv]
    by_cases h1 : 1 < (l.take (i + 1)).count v
    · exact ⟨_, by rw [if_pos h1], ⟨_, rfl⟩⟩
    · exact ⟨v, by rw [if_neg h1], List.prefix_refl v⟩

/-- C1 witness: at the underscore-free input `["N", "A", "N"]` the output
`["N", "A", "N_2"]` is duplicate-free, and at the arbitrary input
`["A", "A"]` the entry at position 1 extends the input entry `"A"`. -/
theorem C1_witness :
    (RenameDuplicates [['N'], ['A'], ['N']]).Nodup
    ∧ ∃ w, (RenameDuplicates [['A'], ['A']]).get? 1 = some w ∧ ['A'] <+: w :=
  ⟨C1_nodup_of_underscore_free.1 [['N'], ['A'], ['N']] (by decide),
   C1_nodup_of_underscore_free.2.2 [['A'], ['A']] 1 ['A'] (by decide)⟩

/-- C2: `RenameDuplicates` implements the spec's reference algorithm: the
example input is mapped as the spec requires, output length equals input
length, duplicate-free inputs are returned unchanged, and at every
position the output is the input header when it is the first occurrence,
and otherwise the input header with an underscore and the running
occurrence count (the count of that header in the prefix up to and
including this position) appended. -/
theorem C2_rename_reference_algorithm :
    RenameDuplicates
        [("Name").data, ("Age").data, ("Name").data, ("City").data, ("Age").data] =
      [("Name").data, ("Age").data, ("Name_2").data, ("City").data, ("Age_2").data]
    ∧ (∀ l : List GoStr, (RenameDuplicates l).length = l.length)
    ∧ (∀ l : List GoStr, l.Nodup → RenameDuplicates l = l)
    ∧ (∀ (l : List GoStr) (i : Nat) (v : GoStr), l.get? i = some v →
        (RenameDuplicates l).get? i =
          some (if 1 < (l.take (i + 1)).count v then
                  v ++ '_' :: natToDecimal ((l.take (i + 1)).count v)
                else v)) := by
  refine ⟨by decide, RenameDuplicates_length, ?_, fun l i v hv => RenameDuplicates_get? hv⟩
  intro l hnd
  apply List.ext_get?
  intro n
  by_cases hn : n < l.length
  · obtain ⟨v, hv⟩ : ∃ v, l.get? n = some v := ⟨_, List.get?_eq_get hn⟩
    rw [RenameDuplicates_get? hv, hv]
    have hle : (l.take (n + 1)).count v ≤ 1 :=
      le_trans (count_take_le _ _ _) (nodup_count_le_one hnd v)
    rw [if_neg (by omega)]
  · have h1 : l.get? n = none := List.get?_eq_none.mpr (by omega)
    have h2 : (RenameDuplicates l).get? n = none :=
      List.get?_eq_none.mpr (by rw [RenameDuplicates_length]; omega)
    rw [h1, h2]

/-- C2 witness: a duplicate-free input is returned unchanged. -/
theorem C2_witness :
    RenameDuplicates [['A'], ['B']] = [['A'], ['B']] :=
  C2_rename_reference_algorithm.2.2.1 _ (by decide)

/-! ### Lemmas about buildDataTable -/

theorem processHeader_length (hdr : List GoStr) :
    (processHeader hdr).length = hdr.length := by
  simp [processHeader, RenameDuplicates_length]

theorem buildRecord_eq_zipWith :
    ∀ (row : List GoStr) (i : Nat) (header : List GoStr), i + row.length ≤ header.length →
      buildRecord header row i = some (List.zipWith DataColumn.mk (header.drop i) row) := by
  intro row
  induction row with
  | nil => intro i header h; simp [buildRecord]
  | cons v vs ih =>
    intro i header h
    have hi : i < header.length := by simp at h; omega
    have hn : header.get? i = some (header.get ⟨i, hi⟩) := List.get?_eq_get hi
    have hdrop : header.drop i = header.get ⟨i, hi⟩ :: header.drop (i + 1) :=
      List.drop_eq_get_cons hi
    have hstep : buildRecord header (v :: vs) i =
        (header.get? i).bind fun n =>
          (buildRecord header vs (i + 1)).map fun rest => ⟨n, v⟩ :: rest := rfl
    rw [hstep, hn, ih (i + 1) header (by simp at h ⊢; omega), hdrop]
    rfl

theorem buildRecord_none_of_long :
    ∀ (vs : List GoStr) (v : GoStr) (i : Nat) (header : List GoStr),
      header.length < i + (v :: vs).length → buildRecord header (v :: vs) i = none := by
  intro vs
  induction vs with
  | nil =>
    intro v i header h
    have hnone : header.get? i = none := List.get?_eq_none.mpr (by simp at h; omega)
    have hstep : buildRecord header [v] i =
        (header.get? i).bind fun n =>
          (buildRecord header [] (i + 1)).map fun rest => ⟨n, v⟩ :: rest := rfl
    rw [hstep, hnone]
    rfl
  | cons w ws ih =>
    intro v i header h
    have hstep : buildRecord header (v :: w :: ws) i =
        (header.get? i).bind fun n =>
          (buildRecord header (w :: ws) (i + 1)).map fun rest => ⟨n, v⟩ :: rest := rfl
    cases hg : header.get? i with
    | none =>
      rw [hstep, hg]
      rfl
    | some n =>
      have hrec := ih w (i + 1) header (by simp at h ⊢; omega)
      rw [hstep, hg]
      show (buildRecord header (w :: ws) (i + 1)).map _ = none
      rw [hrec]
      rfl

theorem buildRecord_names :
    ∀ (row : List GoStr) (i : Nat) (header : List GoStr) (cols : List DataColumn),
      buildRecord header row i = some cols → ∀ col ∈ cols, col.name ∈ header := by
  intro row
  induction row with
  | nil =>
    intro i header cols h col hc
    simp [buildRecord] at h
    subst h
    simp at hc
  | cons v vs ih =>
    intro i header cols h col hc
    simp only [buildRecord, Option.bind_eq_some, Option.map_eq_some'] at h
    obtain ⟨n, hn, rest, hrest, hcols⟩ := h
    subst hcols
    rcases List.mem_cons.mp hc with rfl | hmem
    · exact List.get?_mem hn
    · exact ih (i + 1) header rest hrest col hmem

theorem buildRows_some_of_fit :
    ∀ (rs : List (List GoStr)) (header : List GoStr),
      (∀ r ∈ rs, r.length ≤ header.length) → ∃ rows, buildRows header rs = some rows := by
  intro rs
  induction rs with
  | nil => intro header _; exact ⟨[], rfl⟩
  | cons r rest ih =>
    intro header h
    obtain ⟨rows, hrows⟩ := ih header (fun x hx => h x (by simp [hx]))
    have hr := buildRecord_eq_zipWith r 0 header (by simpa using h r (by simp))
    exact ⟨⟨List.zipWith DataColumn.mk (header.drop 0) r⟩ :: rows,
      by simp [buildRows, hr, hrows]⟩

theorem buildRows_none_of_mem_long :
    ∀ (rs : List (List GoStr)) (header : List GoStr) (r : List GoStr),
      r ∈ rs → header.length < r.length → buildRows header rs = none := by
  intro rs
  induction rs with
  | nil => intro header r hr _; simp at hr
  | cons a rest ih =>
    intro header r hr hlen
    rcases List.mem_cons.mp hr with rfl | hmem
    · cases r with
      | nil => simp at hlen
      | cons v vs =>
        have := buildRecord_none_of_long vs v 0 header (by omega)
        simp [buildRows, this]
    · cases hrec : buildRecord header a 0 with
      | none => simp [buildRows, hrec]
      | some cols => simp [buildRows, hrec, ih header r hmem hlen]

theorem buildRows_names :
    ∀ (rs : List (List GoStr)) (header : List GoStr) (rows : List DataRow),
      buildRows header rs = some rows →
      ∀ rec ∈ rows, ∀ col ∈ rec.columns, col.name ∈ header := by
  intro rs
  induction rs with
  | nil =>
    intro header rows h rec hrec
    simp [buildRows] at h
    subst h
    simp at hrec
  | cons r rest ih =>
    intro header rows h rec hrec
    simp only [buildRows, Option.bind_eq_some, Option.map_eq_some'] at h
    obtain ⟨cols, hcols, rows2, hrows2, hrows⟩ := h
    subst hrows
    rcases List.mem_cons.mp hrec with rfl | hmem
    · exact buildRecord_names r 0 header cols hcols
    · exact ih header rows2 hrows2 rec hmem

/-! ### Claim theorems about buildDataTable -/

/-- C9: observable in-place behavior of `RenameDuplicates`: the returned
sequence (which in Go is the argument slice itself, so the caller's
original header sequence holds these values after the call) has the
input's length, every entry whose header is not duplicated anywhere in
the input is unchanged, and every column name of every record built by
`buildDataTable` is drawn from the processed row 0 (`processHeader`,
i.e. `cleanHeader` applied to the entries of `RenameDuplicates` of the
header row), which `buildDataTable` reads back through the table. -/
theorem C9_in_place_rename_frame :
    (∀ l : List GoStr, (RenameDuplicates l).length = l.length)
    ∧ (∀ (l : List GoStr) (i : Nat) (v : GoStr), l.get? i = some v → l.count v = 1 →
        (RenameDuplicates l).get? i = some v)
    ∧ (∀ (hdr : List GoStr) (dataRows : List (List GoStr)) (dt : DataTable),
        buildDataTable? (some (hdr :: dataRows)) = some dt →
        ∀ rec ∈ dt.rows, ∀ col ∈ rec.columns, col.name ∈ processHeader hdr) := by
  refine ⟨RenameDuplicates_length, ?_, ?_⟩
  · intro l i v hv hcount
    rw [RenameDuplicates_get? hv]
    have hle : (l.take (i + 1)).count v ≤ 1 := by
      have := count_take_le l (i + 1) v
      omega
    rw [if_neg (by omega)]
  · intro hdr dataRows dt h rec hrec col hcol
    simp only [buildDataTable?, Option.map_eq_some'] at h
    obtain ⟨rows, hrows, hdt⟩ := h
    subst hdt
    exact buildRows_names dataRows (processHeader hdr) rows hrows rec hrec col hcol

/-- C9 witness: position 1 of `["A", "B", "A"]` holds the unduplicated
header `"B"`, which the call does not change. -/
theorem C9_witness :
    (RenameDuplicates [['A'], ['B'], ['A']]).get? 1 = some ['B'] :=
  C9_in_place_rename_frame.2.1 [['A'], ['B'], ['A']] 1 ['B'] (by decide) (by decide)

/-- C4: on the two-column test table the built document has exactly one
record with the pairs in header order, and in general for a one-data-row
table within bounds the record is the positional `zipWith` pairing of the
processed header with the row values: association is by position, never
by name lookup. -/
theorem C4_positional_round_trip :
    buildDataTable? (some [[("column1").data, ("column2").data], [("v1").data, ("v2").data]]) =
      some ⟨[⟨[⟨("column1").data, ("v1").data⟩, ⟨("column2").data, ("v2").data⟩]⟩]⟩
    ∧ (∀ (hdr : List GoStr) (vals : List GoStr), vals.length ≤ hdr.length →
        buildDataTable? (some [hdr, vals]) =
          some ⟨[⟨List.zipWith DataColumn.mk (processHeader hdr) vals⟩]⟩) := by
  constructor
  · decide
  · intro hdr vals h
    have hfit : 0 + vals.length ≤ (processHeader hdr).length := by
      rw [processHeader_length]
      omega
    have hr := buildRecord_eq_zipWith vals 0 (processHeader hdr) hfit
    simp [buildDataTable?, buildRows, hr]

/-- C4 witness: a shorter data row paired positionally with a two-entry
header. -/
theorem C4_witness :
    buildDataTable? (some [[['a'], ['b']], [['x']]]) =
      some ⟨[⟨List.zipWith DataColumn.mk (processHeader [['a'], ['b']]) [['x']]⟩]⟩ :=
  C4_positional_round_trip.2 [['a'], ['b']] [['x']] (by decide)

/-- C5: `buildDataTable`'s header lookup is unguarded and positional: if
any data row is strictly longer than the header row the embedding takes
the out-of-range `none` branch (a Go index-out-of-range panic), and if
every data row is no longer than the header row that branch is
unreachable and a table is produced. -/
theorem C5_unguarded_header_lookup :
    ∀ (hdr : List GoStr) (dataRows : List (List GoStr)),
      ((∃ r ∈ dataRows, hdr.length < r.length) →
        buildDataTable? (some (hdr :: dataRows)) = none)
      ∧ ((∀ r ∈ dataRows, r.length ≤ hdr.length) →
        ∃ dt, buildDataTable? (some (hdr :: dataRows)) = some dt) := by
  intro hdr dataRows
  constructor
  · rintro ⟨r, hr, hlen⟩
    have hlen2 : (processHeader hdr).length < r.length := by
      rw [processHeader_length]
      exact hlen
    have hnone := buildRows_none_of_mem_long dataRows (processHeader hdr) r hr hlen2
    simp [buildDataTable?, hnone]
  · intro h
    obtain ⟨rows, hrows⟩ := buildRows_some_of_fit dataRows (processHeader hdr)
      (fun r hr => by rw [processHeader_length]; exact h r hr)
    exact ⟨⟨rows⟩, by simp [buildDataTable?, hrows]⟩

/-- C5 witness: a data row longer than the one-entry header panics
(`none`), while a fitting data row builds a table. -/
theorem C5_witness :
    buildDataTable? (some [[['a']], [['x'], ['y']]]) = none
    ∧ ∃ dt, buildDataTable? (some [[['a']], [['x']]]) = some dt :=
  ⟨(C5_unguarded_header_lookup [['a']] [[['x'], ['y']]]).1
      ⟨[['x'], ['y']], by decide, by decide⟩,
   (C5_unguarded_header_lookup [['a']] [[['x']]]).2 (by decide)⟩

/-! ### Claim theorems about header sanitization -/

/-- C3 counterexample: sanitizing `"<Hello World!>"` does not yield
`"HelloWorld"`; the space survives because the space character is not in
`invalidXmlChars` and `cleanHeader` performs no concatenation. -/
theorem C3_counterexample :
    cleanHeader (("<Hello World!>").data) ≠ ("HelloWorld").data := by decide

/-- C3 (amended): in sanitize-for-markup mode, sanitizing the header
`"<Hello World!>"` yields `"Hello World"`: the string (already in title
case) is passed through the title caser because it contains a space, the
invalid characters `<`, `>`, `!` are stripped, and the embedded space is
preserved. -/
theorem C3_sanitize_keeps_space :
    cleanHeader (("<Hello World!>").data) = ("Hello World").data := by decide

/-! ### Lemmas about convertToISO8601 -/

theorem tryFormats_none_of_all_fail :
    ∀ (L : List (List Tok)) (s : GoStr),
      (∀ g ∈ L, runParse g s = none) → tryFormats L s = none := by
  intro L
  induction L with
  | nil => intro s _; rfl
  | cons f fs ih =>
    intro s h
    have hf : runParse f s = none := h f (by simp)
    have hstep : tryFormats (f :: fs) s =
        match runParse f s with
        | some t => some (formatDateTime t)
        | none => tryFormats fs s := rfl
    rw [hstep, hf]
    exact ih s fun g hg => h g (by simp [hg])

theorem tryFormats_append_first_success :
    ∀ (pre : List (List Tok)) (g : List Tok) (post : List (List Tok)) (s : GoStr)
      (t : ParsedTime),
      (∀ f ∈ pre, runParse f s = none) → runParse g s = some t →
      tryFormats (pre ++ g :: post) s = some (formatDateTime t) := by
  intro pre
  induction pre with
  | nil =>
    intro g post s t _ hg
    have hstep : tryFormats (g :: post) s =
        match runParse g s with
        | some t => some (formatDateTime t)
        | none => tryFormats post s := rfl
    rw [List.nil_append, hstep, hg]
  | cons f fs ih =>
    intro g post s t hpre hg
    have hf : runParse f s = none := hpre f (by simp)
    have hstep : tryFormats (f :: (fs ++ g :: post)) s =
        match runParse f s with
        | some t => some (formatDateTime t)
        | none => tryFormats (fs ++ g :: post) s := rfl
    rw [List.cons_append, hstep, hf]
    exact ih g post s t (fun x hx => hpre x (by simp [hx])) hg

theorem tryFormats_some_shape :
    ∀ (L : List (List Tok)) (s r : GoStr),
      tryFormats L s = some r → ∃ t, r = formatDateTime t := by
  intro L
  induction L with
  | nil => intro s r h; simp [tryFormats] at h
  | cons f fs ih =>
    intro s r h
    have hstep : tryFormats (f :: fs) s =
        match runParse f s with
        | some t => some (formatDateTime t)
        | none => tryFormats fs s := rfl
    rw [hstep] at h
    cases hf : runParse f s with
    | some t =>
      rw [hf] at h
      exact ⟨t, (Option.some.inj h).symm⟩
    | none =>
      rw [hf] at h
      exact ih s r h

theorem format4_digit_chars {n : Nat} {c : Char} (hc : c ∈ format4 n) :
    isAsciiDigit c = true := by
  rcases List.mem_append.mp hc with h | h
  · rw [List.eq_of_mem_replicate h]
    decide
  · exact natToDecimal_digits h

theorem format4_length (n : Nat) : 4 ≤ (format4 n).length := by
  simp [format4]
  omega

theorem formatDateTime_first_three (t : ParsedTime) :
    ∃ (d0 d1 d2 : Char) (l : GoStr),
      formatDateTime t = d0 :: d1 :: d2 :: l ∧
      isAsciiDigit d0 = true ∧ isAsciiDigit d1 = true ∧ isAsciiDigit d2 = true := by
  have h4 := format4_length t.year
  rcases hY : format4 t.year with _ | ⟨d0, _ | ⟨d1, _ | ⟨d2, rest⟩⟩⟩
  · rw [hY] at h4; simp at h4
  · rw [hY] at h4; simp at h4
  · rw [hY] at h4; simp at h4
  · refine ⟨d0, d1, d2, rest ++ ('-' :: pad2 t.month ++ '-' :: pad2 t.day ++ ' ' ::
      pad2 t.hour ++ ':' :: pad2 t.minute ++ ':' :: pad2 t.second), ?_, ?_, ?_, ?_⟩
    · rw [formatDateTime, hY]
      simp
    · exact format4_digit_chars (by rw [hY]; simp)
    · exact format4_digit_chars (by rw [hY]; simp)
    · exact format4_digit_chars (by rw [hY]; simp)

theorem scanLayout_month_sep_none {c : Char} (hc : isAsciiDigit c = false)
    (toks : List Tok) {d0 d1 d2 : Char} (l : GoStr) (st : ParsedTime)
    (h0 : isAsciiDigit d0 = true) (h1 : isAsciiDigit d1 = true)
    (h2 : isAsciiDigit d2 = true) :
    scanLayout (Tok.zeroMonth :: Tok.lit c :: toks) (d0 :: d1 :: d2 :: l) st = none
    ∧ scanLayout (Tok.numMonth :: Tok.lit c :: toks) (d0 :: d1 :: d2 :: l) st = none := by
  have hne : d2 ≠ c := fun h => by rw [h, hc] at h2; cases h2
  constructor
  · simp [scanLayout, getnum2, h0, h1, hne]
  · simp [scanLayout, getnum12, h0, h1, hne]

theorem runParse_month_sep_none_zero {c : Char} (hc : isAsciiDigit c = false)
    (toks : List Tok) {d0 d1 d2 : Char} (l : GoStr)
    (h0 : isAsciiDigit d0 = true) (h1 : isAsciiDigit d1 = true)
    (h2 : isAsciiDigit d2 = true) :
    runParse (Tok.zeroMonth :: Tok.lit c :: toks) (d0 :: d1 :: d2 :: l) = none := by
  have hs := (scanLayout_month_sep_none hc toks l initTime h0 h1 h2).1
  simp [runParse, hs]

theorem runParse_month_sep_none_num {c : Char} (hc : isAsciiDigit c = false)
    (toks : List Tok) {d0 d1 d2 : Char} (l : GoStr)
    (h0 : isAsciiDigit d0 = true) (h1 : isAsciiDigit d1 = true)
    (h2 : isAsciiDigit d2 = true) :
    runParse (Tok.numMonth :: Tok.lit c :: toks) (d0 :: d1 :: d2 :: l) = none := by
  have hs := (scanLayout_month_sep_none hc toks l initTime h0 h1 h2).2
  simp [runParse, hs]

theorem runParse_formatDateTime_none :
    ∀ g ∈ formats, ∀ u : ParsedTime, runParse g (formatDateTime u) = none := by
  intro g hg u
  obtain ⟨d0, d1, d2, l, hshape, h0, h1, h2⟩ := formatDateTime_first_three u
  rw [hshape]
  have hdash : isAsciiDigit '-' = false := by decide
  have hslash : isAsciiDigit '/' = false := by decide
  fin_cases hg <;>
    first
    | exact runParse_month_sep_none_zero hdash _ l h0 h1 h2
    | exact runParse_month_sep_none_num hslash _ l h0 h1 h2
    | exact runParse_month_sep_none_zero hslash _ l h0 h1 h2

/-! ### Claim theorems about convertToISO8601 -/

/-- C6: `convertToISO8601` tries its nine layouts in their fixed order:
if every layout fails to parse the string it is returned unchanged, and
if some layout succeeds while all earlier layouts fail, the result is the
parsed time reformatted in the canonical `time.DateTime` layout; the
embedding is a total function, so the coercion never fails. -/
theorem C6_first_match_semantics :
    (∀ s : GoStr, (∀ g ∈ formats, runParse g s = none) → convertToISO8601 s = s)
    ∧ (∀ (s : GoStr) (pre : List (List Tok)) (g : List Tok) (post : List (List Tok))
        (t : ParsedTime),
        formats = pre ++ g :: post → (∀ f ∈ pre, runParse f s = none) →
        runParse g s = some t → convertToISO8601 s = formatDateTime t)
    ∧ formats.length = 9 := by
  refine ⟨?_, ?_, rfl⟩
  · intro s h
    have hnone := tryFormats_none_of_all_fail formats s h
    simp [convertToISO8601, hnone]
  · intro s pre g post t hfmt hpre hg
    have hsucc := tryFormats_append_first_success pre g post s t hpre hg
    rw [← hfmt] at hsucc
    simp [convertToISO8601, hsucc]

/-- C6 witness: the first layout parses `"01-02-06"` (to 2006-01-02) and
no layout parses `"hello"`. -/
theorem C6_witness :
    convertToISO8601 (("01-02-06").data) = formatDateTime ⟨2006, 1, 2, 0, 0, 0⟩
    ∧ convertToISO8601 (("hello").data) = ("hello").data :=
  ⟨C6_first_match_semantics.2.1 (("01-02-06").data) []
      [Tok.zeroMonth, Tok.lit '-', Tok.zeroDay, Tok.lit '-', Tok.year2]
      (formats.drop 1) ⟨2006, 1, 2, 0, 0, 0⟩ (by decide)
      (by intro f hf; exact absurd hf (List.not_mem_nil f)) (by decide),
   C6_first_match_semantics.1 (("hello").data) (by decide)⟩

/-- C7: `convertToISO8601` is idempotent: a string no layout parses is
returned unchanged (so a second application returns it unchanged again),
and a reformatted date starts with a four-digit year, whose third digit
makes every layout fail at its month-separator literal, so reformatted
dates are fixed points. -/
theorem C7_idempotent :
    ∀ s : GoStr, convertToISO8601 (convertToISO8601 s) = convertToISO8601 s := by
  intro s
  cases h : tryFormats formats s with
  | none =>
    have hs : convertToISO8601 s = s := by simp [convertToISO8601, h]
    rw [hs]
    exact hs
  | some r =>
    obtain ⟨t, rfl⟩ := tryFormats_some_shape formats s r h
    have h2 : tryFormats formats (formatDateTime t) = none :=
      tryFormats_none_of_all_fail formats (formatDateTime t)
        (fun g hg => runParse_formatDateTime_none g hg t)
    have hs : convertToISO8601 s = formatDateTime t := by simp [convertToISO8601, h]
    have ho : convertToISO8601 (formatDateTime t) = formatDateTime t := by
      simp [convertToISO8601, h2]
    rw [hs, ho]

/-! ### Claim theorems about error reporting and extension checking -/

/-- C8 counterexample: the claim's reduction to `ErrMsg.Exit` — that
`Exit` prints the diagnostic for every `ErrMsg` whose `Code` is nonzero —
is false: the `ErrMsg` values assigned on parse-xml's no-input and
nonexistent-path paths carry nonzero codes but `nil` errors, and `Exit`
applied to either prints nothing. -/
theorem C8_counterexample :
    parseXmlNoInputMsg.exitBehavior = (none, ErrNoInput)
    ∧ ErrNoInput ≠ 0
    ∧ parseXmlMissingFileMsg.exitBehavior = (none, ErrNoFile)
    ∧ ErrNoFile ≠ 0 := by decide

/-- C8 (amended): `ErrMsg.Exit` prints the diagnostic naming the code and
the underlying error exactly when the `ErrMsg` carries a non-nil error,
and always exits with the stored code; the printing guarantee is keyed on
`Err` being non-nil, not on `Code` being nonzero, so an `ErrMsg` with a
nonzero code but a `nil` error exits with its code and prints nothing. -/
theorem C8_exit_prints_iff_err :
    ∀ e : ErrMsg,
      (∀ m : GoStr, e.err = some m →
        e.exitBehavior = (some (diagnosticText e.code m), e.code))
      ∧ (e.err = none → e.exitBehavior = (none, e.code)) := by
  intro e
  constructor
  · intro m hm
    simp [ErrMsg.exitBehavior, hm]
  · intro hm
    simp [ErrMsg.exitBehavior, hm]

/-- C8 witness: an `ErrMsg` with a non-nil error prints the diagnostic
and exits with its code. -/
theorem C8_witness :
    ErrMsg.exitBehavior ⟨some (("boom").data), ErrParse⟩ =
      (some (diagnosticText ErrParse (("boom").data)), ErrParse) :=
  (C8_exit_prints_iff_err ⟨some (("boom").data), ErrParse⟩).1 (("boom").data) rfl

/-- C10 counterexample: the claim quantifies over every path whose
extension differs from the expected one only in letter case; for the path
`"data.csv"` with expected extension `".CSV"` the two differ only in
case, yet `CheckExtension` returns `true` (the expected extension is
lowercased before the comparison). -/
theorem C10_counterexample :
    CheckExtension (("data.csv").data) ((".CSV").data) = true
    ∧ filepathExt (("data.csv").data) ≠ (".CSV").data
    ∧ toLowerStr (filepathExt (("data.csv").data)) = toLowerStr ((".CSV").data) := by
  refine ⟨by decide, by decide, by decide⟩

/-- C10 (amended): `CheckExtension` lowercases the expected extension but
compares case-sensitively against the path's actual extension: it returns
`true` exactly when the actual extension equals the lowercased
(dot-prefixed) expected extension; hence a path whose actual extension
differs from the lowercased expected extension — such as `"data.CSV"`
against `".csv"` — is rejected. -/
theorem C10_case_sensitive_compare :
    (∀ path extension : GoStr,
      CheckExtension path extension = true ↔
        filepathExt path = toLowerStr (dotPrefixed extension))
    ∧ CheckExtension (("data.CSV").data) ((".csv").data) = false := by
  refine ⟨?_, by decide⟩
  intro path extension
  simp [CheckExtension]
